import Mathlib

/-!
# Verification of the `file_rw` parallel file reader and byte-level mutators

Shallow embedding of the Go package `file_rw` (files `file_rw.go` and the
mutator file containing `FileOverwriteBytes` / `FileInsertBytes`).

Modelling conventions:
* A file's content is a `List Nat` of byte values; file sizes are `Nat`
  (Go `int64` sizes are always nonnegative and far from overflow here).
* `MultithreadedRead` in Go stats the file (obtaining `fSize`), plans chunks
  from `fSize`, then performs the chunk reads against the file as it is on
  disk at read time.  The model therefore takes the statted size and the
  on-disk content as two parameters; in the steady state (file unchanged
  between stat and read) the content has exactly the statted length.
* Go's `math.Ceil(float64(fSize) / float64(numberOfThreads))` is modelled as
  exact ceiling division on `Nat`: the divisor is 1, 8 or 16, for which the
  float64 computation is exact for all sizes below 2^53.
* `os.File.ReadAt(b, off)` fills a prefix of the caller-allocated buffer `b`
  with the available bytes and leaves the rest of `b` (zero-initialised by
  `make`) untouched; reaching end-of-file returns `io.EOF`, which the code
  treats as a non-error.  On the deterministic byte-list model no other I/O
  error can occur, so the per-chunk `error` field stays `none` and the
  aggregate-error branch of the Go code is unreachable.  The channel fan-in
  stores each arriving part back at its `partNumber` slot, so the assembly
  order is the index order regardless of arrival order; the model assembles
  in index order directly.
* A positioned write (`Seek` + `Write` on a file opened `O_WRONLY` without
  truncation) replaces the bytes `[pos, pos + len)` and grows the file when
  the data extends past the old end; POSIX zero-fills a hole when writing
  past end-of-file, which `writeAt` models with the `List.replicate` term
  (both mutators check `fromByte > size` first, so the hole is always empty
  in reachable calls).
-/

/-- The byte value of the line-feed character `\n`. -/
def lfByte : Nat := 10

/-- One planned unit of work of `MultithreadedRead` (Go struct `filePart`). -/
structure filePart where
  partNumber : Nat
  startReadingByte : Nat
  content : List Nat
  lengthRequested : Nat
  lengthRead : Nat
  err : Option String
deriving Repr, DecidableEq

/-- Worker-count policy of `MultithreadedRead`:
`fSize <= 1048576` gives 1 thread, `fSize <= 134217728` gives 8, else 16. -/
def numberOfThreads (fSize : Nat) : Nat :=
  if fSize ≤ 1048576 then 1
  else if fSize ≤ 134217728 then 8
  else 16

/-- `chunkSize := int64(math.Ceil(float64(fSize) / float64(numberOfThreads)))`,
as exact ceiling division (exact for divisors 1, 8, 16 below 2^53). -/
def chunkSize (fSize : Nat) : Nat :=
  (fSize + (numberOfThreads fSize - 1)) / numberOfThreads fSize

/-- `lastChunkSize := fSize - chunkSize*(int64(numberOfThreads)-1)` computed in
`int64` arithmetic, which may in principle go negative. -/
def lastChunkSizeI (fSize : Nat) : Int :=
  (fSize : Int) - (chunkSize fSize : Int) * ((numberOfThreads fSize : Int) - 1)

/-- The length of the last chunk's buffer (`make([]byte, lastChunkSize)`). -/
def lastChunkSize (fSize : Nat) : Nat :=
  (lastChunkSizeI fSize).toNat

/-- The reading plan (`fileInChunks` after the planning loop): chunk `i`
starts at `i * chunkSize`; every chunk requests `chunkSize` bytes except the
one with the highest index, which requests `lastChunkSize` bytes.  Each
buffer is allocated zero-filled by `make([]byte, ...)`. -/
def fileInChunks (fSize : Nat) : List filePart :=
  (List.range (numberOfThreads fSize)).map fun i =>
    if i = numberOfThreads fSize - 1 then
      { partNumber := i
        startReadingByte := i * chunkSize fSize
        content := List.replicate (lastChunkSize fSize) 0
        lengthRequested := lastChunkSize fSize
        lengthRead := 0
        err := none }
    else
      { partNumber := i
        startReadingByte := i * chunkSize fSize
        content := List.replicate (chunkSize fSize) 0
        lengthRequested := chunkSize fSize
        lengthRead := 0
        err := none }

/-- The body of the per-chunk goroutine: `f.ReadAt(partToRead.content,
partToRead.startReadingByte)` fills a prefix of the buffer with the bytes
available at that offset and reports how many bytes were read; the rest of
the buffer keeps its zero fill.  `io.EOF` is treated as success by the code. -/
def readChunkFn (file : List Nat) (p : filePart) : filePart :=
  let r := (file.drop p.startReadingByte).take p.content.length
  { p with
    content := r ++ List.replicate (p.content.length - r.length) 0
    lengthRead := r.length }

/-- `MultithreadedRead`, split into the statted size (from `validateFilePath`)
and the on-disk content at read time.  Plans chunks from `statSize`, performs
every chunk read, assembles the buffers in index order and checks the
assembled length against `statSize`. -/
def MultithreadedRead (statSize : Nat) (file : List Nat) : Except String (List Nat) :=
  let parts := (fileInChunks statSize).map (readChunkFn file)
  let assembledFile := parts.foldl (fun acc p => acc ++ p.content) []
  if assembledFile.length = statSize then
    Except.ok assembledFile
  else
    Except.error ("file size error: expected [" ++ toString statSize ++ "], got ["
      ++ toString assembledFile.length ++ "] bytes")

/-- Whitespace test of `strings.TrimSpace`, restricted to the ASCII range
(`'\t'`, `'\n'`, `'\v'`, `'\f'`, `'\r'`, `' '`); the byte buffers of the
claims are ASCII, where Go's rune-level trimming coincides with this. -/
def isSpaceByte (b : Nat) : Bool :=
  b = 9 || b = 10 || b = 11 || b = 12 || b = 13 || b = 32

/-- `strings.TrimSpace`: drop whitespace from both ends. -/
def trimSpace (s : List Nat) : List Nat :=
  ((s.dropWhile isSpaceByte).reverse.dropWhile isSpaceByte).reverse

/-- `bufReader.ReadString('\n')`: the returned segment includes the delimiter;
`some rest` is the unread remainder when the delimiter was found, `none`
models the `io.EOF` return when end of data was reached first. -/
def readLine : List Nat → List Nat × Option (List Nat)
  | [] => ([], none)
  | b :: rest =>
    if b = lfByte then ([lfByte], some rest)
    else
      let p := readLine rest
      (b :: p.1, p.2)

/-- The `for` loop of `splitToLines`: read a line, trim it, append it when
`allowEmptyLines` or the trimmed line is nonempty, and stop on `io.EOF`.
The `fuel` argument only forces termination; `fuel > data.length` always
suffices because each delimiter-consuming iteration shortens the data. -/
def splitLoop (allowEmptyLines : Bool) : Nat → List Nat → List (List Nat)
  | 0, _ => []
  | fuel + 1, data =>
    match readLine data with
    | (line, some rest) =>
      let trimmed := trimSpace line
      (if allowEmptyLines || trimmed ≠ [] then [trimmed] else [])
        ++ splitLoop allowEmptyLines fuel rest
    | (line, none) =>
      let trimmed := trimSpace line
      if allowEmptyLines || trimmed ≠ [] then [trimmed] else []

/-- `splitToLines(data, allowEmptyLines)`: the error return of the Go
function can only be a non-`io.EOF` reader error, which cannot occur when
reading from an in-memory `bytes.Reader`, so the model returns the lines. -/
def splitToLines (data : List Nat) (allowEmptyLines : Bool) : List (List Nat) :=
  splitLoop allowEmptyLines (data.length + 1) data

/-- The sentinel `ErrFileEmpty = errors.New("file empty")`. -/
def ErrFileEmpty : String := "file empty"

/-- `FastLoadTxtFile` on a file whose statted size matches its content:
multithreaded read, line split, and the `returnErrorOnEmptyFile` check
against a zero-line result. -/
def FastLoadTxtFile (file : List Nat) (allowEmptyLines returnErrorOnEmptyFile : Bool) :
    Except String (List (List Nat)) :=
  match MultithreadedRead file.length file with
  | Except.error e => Except.error e
  | Except.ok rawData =>
    let lines := splitToLines rawData allowEmptyLines
    if returnErrorOnEmptyFile && lines.length = 0 then Except.error ErrFileEmpty
    else Except.ok lines

/-- The gap-refusal error message shared by both mutators. -/
def gapErr : String := "incorrect write, the gap is not allowed"

/-- Positioned write semantics (`Seek(pos, 0)` then `Write(data)` on a file
opened `O_WRONLY` without truncation): bytes `[pos, pos + data.length)` are
replaced, the file grows when the data passes the old end, and a write past
end-of-file would zero-fill the hole (the hole is empty whenever
`pos ≤ f.length`, which both mutators guarantee). -/
def writeAt (f : List Nat) (pos : Nat) (data : List Nat) : List Nat :=
  f.take pos ++ List.replicate (pos - f.length) 0 ++ data ++ f.drop (pos + data.length)

/-- `FileOverwriteBytes(path, fromByte, replacement)`: result is the file
content after the call, paired with the returned error (`none` on success).
The gap check `fromByte > size` fires before the file is opened, so on that
branch the content is unchanged. -/
def FileOverwriteBytes (file : List Nat) (fromByte : Nat) (replacement : List Nat) :
    List Nat × Option String :=
  if file.length < fromByte then (file, some gapErr)
  else (writeAt file fromByte replacement, none)

/-- `FileInsertBytes(path, fromByte, insertion)`: read the remainder from
`fromByte` to end-of-file, then write the insertion at `fromByte` and the
remembered remainder immediately after it. -/
def FileInsertBytes (file : List Nat) (fromByte : Nat) (insertion : List Nat) :
    List Nat × Option String :=
  if file.length < fromByte then (file, some gapErr)
  else
    let remainder := file.drop fromByte
    let afterInsertion := writeAt file fromByte insertion
    (writeAt afterInsertion (fromByte + insertion.length) remainder, none)

theorem numberOfThreads_pos (fSize : Nat) : 0 < numberOfThreads fSize := by
  unfold numberOfThreads
  split <;> [decide; split <;> decide]

theorem chunkMul_le (s : Nat) : chunkSize s * (numberOfThreads s - 1) ≤ s := by
  unfold chunkSize numberOfThreads
  split
  · simp
  · split <;> omega

theorem lastChunkSizeI_cast (s : Nat) :
    lastChunkSizeI s = (s : Int) - ((chunkSize s * (numberOfThreads s - 1) : Nat) : Int) := by
  have h2 := numberOfThreads_pos s
  unfold lastChunkSizeI
  have h3 : ((numberOfThreads s : Int) - 1) = ((numberOfThreads s - 1 : Nat) : Int) := by
    omega
  rw [h3]
  push_cast
  ring

theorem lastChunkSizeI_nonneg (s : Nat) : 0 ≤ lastChunkSizeI s := by
  have h1 := chunkMul_le s
  rw [lastChunkSizeI_cast]
  omega

theorem lastChunkSize_eq (s : Nat) :
    lastChunkSize s = s - chunkSize s * (numberOfThreads s - 1) := by
  have h1 := chunkMul_le s
  unfold lastChunkSize
  rw [lastChunkSizeI_cast]
  omega

theorem fileInChunks_length (s : Nat) :
    (fileInChunks s).length = numberOfThreads s := by
  unfold fileInChunks
  simp

theorem fileInChunks_getElem (s i : Nat) (h : i < (fileInChunks s).length) :
    (fileInChunks s)[i] =
      if i = numberOfThreads s - 1 then
        { partNumber := i
          startReadingByte := i * chunkSize s
          content := List.replicate (lastChunkSize s) 0
          lengthRequested := lastChunkSize s
          lengthRead := 0
          err := none }
      else
        { partNumber := i
          startReadingByte := i * chunkSize s
          content := List.replicate (chunkSize s) 0
          lengthRequested := chunkSize s
          lengthRead := 0
          err := none } := by
  rw [fileInChunks_length] at h
  unfold fileInChunks
  simp [h]

theorem ifChunkLen_sum (n c last : Nat) :
    (((List.range (n + 1)).map fun i => if i = n then last else c)).sum
      = n * c + last := by
  rw [List.range_succ, List.map_append, List.sum_append]
  have hmap : ((List.range n).map fun i => if i = n then last else c)
      = (List.range n).map fun _ => c := by
    apply List.map_congr_left
    intro a ha
    rw [List.mem_range] at ha
    simp [Nat.ne_of_lt ha]
  rw [hmap]
  simp [List.map_const', List.sum_replicate, Nat.mul_comm]

theorem planRequested_map (s : Nat) :
    (fileInChunks s).map filePart.lengthRequested
      = (List.range (numberOfThreads s)).map
          fun i => if i = numberOfThreads s - 1 then lastChunkSize s else chunkSize s := by
  unfold fileInChunks
  rw [List.map_map]
  apply List.map_congr_left
  intro a _
  by_cases hc : a = numberOfThreads s - 1 <;> simp [hc]

theorem planRequested_sum (s : Nat) :
    ((fileInChunks s).map filePart.lengthRequested).sum = s := by
  obtain ⟨w, hw⟩ : ∃ w, numberOfThreads s = w + 1 :=
    ⟨numberOfThreads s - 1, by have := numberOfThreads_pos s; omega⟩
  have hlast := lastChunkSize_eq s
  have hle := chunkMul_le s
  rw [planRequested_map, hw]
  simp only [Nat.add_sub_cancel]
  rw [ifChunkLen_sum]
  rw [hw] at hlast hle
  simp only [Nat.add_sub_cancel] at hlast hle
  have hcomm : w * chunkSize s = chunkSize s * w := Nat.mul_comm _ _
  omega

theorem planTake_sum (s i : Nat) (h : i < numberOfThreads s) :
    (((fileInChunks s).take i).map filePart.lengthRequested).sum = i * chunkSize s := by
  rw [List.map_take, planRequested_map, ← List.map_take, List.take_range,
    Nat.min_eq_left (Nat.le_of_lt h)]
  have hmap : ((List.range i).map
        fun j => if j = numberOfThreads s - 1 then lastChunkSize s else chunkSize s)
      = (List.range i).map fun _ => chunkSize s := by
    apply List.map_congr_left
    intro a ha
    rw [List.mem_range] at ha
    have hne : a ≠ numberOfThreads s - 1 := by omega
    simp [hne]
  rw [hmap]
  simp [List.map_const', List.sum_replicate, Nat.mul_comm]

theorem planIndexes (s : Nat) :
    (fileInChunks s).map filePart.partNumber = List.range (numberOfThreads s) := by
  unfold fileInChunks
  rw [List.map_map]
  have hfun : ∀ a ∈ List.range (numberOfThreads s),
      (filePart.partNumber ∘ fun i =>
        if i = numberOfThreads s - 1 then
          { partNumber := i
            startReadingByte := i * chunkSize s
            content := List.replicate (lastChunkSize s) 0
            lengthRequested := lastChunkSize s
            lengthRead := 0
            err := none }
        else
          { partNumber := i
            startReadingByte := i * chunkSize s
            content := List.replicate (chunkSize s) 0
            lengthRequested := chunkSize s
            lengthRead := 0
            err := none : filePart }) a = id a := by
    intro a _
    by_cases hc : a = numberOfThreads s - 1 <;> simp [hc]
  rw [List.map_congr_left hfun, List.map_id]

/-- C7: the chunk plan sums to the file size, is a contiguous partition (each
start offset is the sum of the preceding requested lengths), has unique
contiguous indices from 0, gives every chunk except the highest-index one the
same length `chunkSize`, and for `fileSize = 0` is the well-formed one-chunk
plan of length 0 (the divisor `numberOfThreads 0 = 1` is never zero). -/
theorem chunkPlan_invariants (s : Nat) :
    ((fileInChunks s).map filePart.lengthRequested).sum = s ∧
    (∀ i, (h : i < (fileInChunks s).length) →
      (fileInChunks s)[i].startReadingByte
        = (((fileInChunks s).take i).map filePart.lengthRequested).sum) ∧
    (fileInChunks s).map filePart.partNumber = List.range (fileInChunks s).length ∧
    (∀ i, (h : i < (fileInChunks s).length) → i ≠ (fileInChunks s).length - 1 →
      (fileInChunks s)[i].lengthRequested = chunkSize s) ∧
    fileInChunks 0 = [⟨0, 0, [], 0, 0, none⟩] := by
  refine ⟨planRequested_sum s, fun i h => ?_, ?_, fun i h hne => ?_, by decide⟩
  · have hw : i < numberOfThreads s := by rw [fileInChunks_length] at h; exact h
    rw [planTake_sum s i hw, fileInChunks_getElem s i h]
    split <;> rfl
  · rw [fileInChunks_length]
    exact planIndexes s
  · have hw : i < numberOfThreads s := by rw [fileInChunks_length] at h; exact h
    rw [fileInChunks_length] at hne
    rw [fileInChunks_getElem s i h, if_neg (by omega)]

/-- Witness for C7: the plan invariants instantiated for a 2,000,000-byte
file (8 workers, chunk size 250,000) at chunk index 1. -/
theorem chunkPlan_invariants_witness :
    ((fileInChunks 2000000).get ⟨1, by rw [fileInChunks_length]; decide⟩).startReadingByte
        = (((fileInChunks 2000000).take 1).map filePart.lengthRequested).sum ∧
    ((fileInChunks 2000000).get ⟨1, by rw [fileInChunks_length]; decide⟩).lengthRequested
        = chunkSize 2000000 := by
  have hlen : 1 < (fileInChunks 2000000).length := by
    rw [fileInChunks_length]; decide
  have hne : 1 ≠ (fileInChunks 2000000).length - 1 := by
    rw [fileInChunks_length]; decide
  have h1 := (chunkPlan_invariants 2000000).2.1 1 hlen
  have h2 := (chunkPlan_invariants 2000000).2.2.2.1 1 hlen hne
  exact ⟨by simpa using h1, by simpa using h2⟩

theorem foldl_append_content (ps : List filePart) (acc : List Nat) :
    ps.foldl (fun a p => a ++ p.content) acc
      = acc ++ (ps.map filePart.content).flatten := by
  induction ps generalizing acc with
  | nil => simp
  | cons p ps ih => simp [ih]

theorem flatten_take_chunks (f : List Nat) (c k : Nat) (h : k * c ≤ f.length) :
    (((List.range k).map fun i => (f.drop (i * c)).take c)).flatten
      = f.take (k * c) := by
  induction k with
  | zero => simp
  | succ k ih =>
    have hk : k * c ≤ f.length := by rw [Nat.succ_mul] at h; omega
    rw [List.range_succ, List.map_append, List.flatten_append, ih hk]
    simp only [List.map_cons, List.map_nil, List.flatten_cons, List.flatten_nil,
      List.append_nil]
    rw [Nat.succ_mul, List.take_add]

theorem MultithreadedRead_self (f : List Nat) :
    MultithreadedRead f.length f = Except.ok f := by
  obtain ⟨w, hw⟩ : ∃ w, numberOfThreads f.length = w + 1 :=
    ⟨numberOfThreads f.length - 1, by have := numberOfThreads_pos f.length; omega⟩
  have hle : chunkSize f.length * w ≤ f.length := by
    have h := chunkMul_le f.length
    rw [hw] at h
    simpa using h
  have hlast : lastChunkSize f.length = f.length - chunkSize f.length * w := by
    have h := lastChunkSize_eq f.length
    rw [hw] at h
    simpa using h
  have hcontents : (((fileInChunks f.length).map (readChunkFn f)).map filePart.content)
      = ((List.range w).map fun i => (f.drop (i * chunkSize f.length)).take (chunkSize f.length))
        ++ [f.drop (w * chunkSize f.length)] := by
    unfold fileInChunks
    rw [List.map_map, List.map_map, hw, List.range_succ, List.map_append]
    congr 1
    · apply List.map_congr_left
      intro a ha
      rw [List.mem_range] at ha
      have hne : a ≠ w + 1 - 1 := by omega
      simp only [Function.comp_apply, if_neg hne]
      unfold readChunkFn
      simp only [List.length_replicate]
      have hlen : ((f.drop (a * chunkSize f.length)).take (chunkSize f.length)).length
          = chunkSize f.length := by
        rw [List.length_take, List.length_drop]
        have hstep : (a + 1) * chunkSize f.length ≤ f.length := by
          calc (a + 1) * chunkSize f.length
              ≤ w * chunkSize f.length := Nat.mul_le_mul_right _ (by omega)
            _ = chunkSize f.length * w := Nat.mul_comm _ _
            _ ≤ f.length := hle
        rw [Nat.succ_mul] at hstep
        omega
      simp [hlen]
    · have hcond : w = w + 1 - 1 := by omega
      simp only [Function.comp_apply, List.map_cons, List.map_nil, if_pos hcond]
      unfold readChunkFn
      simp only [List.length_replicate]
      have hdroplen : (f.drop (w * chunkSize f.length)).length = lastChunkSize f.length := by
        rw [List.length_drop, hlast, Nat.mul_comm]
      have htake : (f.drop (w * chunkSize f.length)).take (lastChunkSize f.length)
          = f.drop (w * chunkSize f.length) := by
        rw [← hdroplen, List.take_length]
      rw [htake, hdroplen]
      simp
  have hflat : ((((fileInChunks f.length).map (readChunkFn f)).map filePart.content)).flatten
      = f := by
    rw [hcontents, List.flatten_append,
      flatten_take_chunks f (chunkSize f.length) w (by rw [Nat.mul_comm]; exact hle)]
    simp [List.take_append_drop]
  simp only [MultithreadedRead]
  rw [foldl_append_content, List.nil_append, hflat]
  simp

/-- The whole-file contiguous read (`os.ReadFile` in `FileReadContents` /
`FileReadText`): the file's bytes as one block. -/
def contiguousRead (file : List Nat) : List Nat := file

/-- C1: for a file whose content length equals the statted size (the file did
not change between planning and reading), `MultithreadedRead` succeeds and
its reassembled buffer is byte-identical to the contiguous whole-file read,
for every file size and hence for every worker count the thresholds select. -/
theorem MultithreadedRead_eq_contiguous (f : List Nat) :
    MultithreadedRead f.length f = Except.ok (contiguousRead f) :=
  MultithreadedRead_self f

theorem writeAt_no_hole (f : List Nat) (pos : Nat) (data : List Nat) (h : pos ≤ f.length) :
    writeAt f pos data = f.take pos ++ data ++ f.drop (pos + data.length) := by
  unfold writeAt
  rw [Nat.sub_eq_zero_of_le h]
  simp

/-- C3: with `fromByte ≤ currentFileSize`, `FileOverwriteBytes` succeeds and
the file becomes `old[0:fromByte] + replacement + old[fromByte+len:]`; when
the replacement reaches or passes the old end the tail is empty and the file
grows; at `fromByte = currentFileSize` it is exactly an append. -/
theorem FileOverwriteBytes_spec (f : List Nat) (k : Nat) (r : List Nat) (h : k ≤ f.length) :
    FileOverwriteBytes f k r = (f.take k ++ r ++ f.drop (k + r.length), none) ∧
    (f.length ≤ k + r.length → FileOverwriteBytes f k r = (f.take k ++ r, none)) ∧
    (k = f.length → FileOverwriteBytes f k r = (f ++ r, none)) := by
  have hmain : FileOverwriteBytes f k r = (f.take k ++ r ++ f.drop (k + r.length), none) := by
    unfold FileOverwriteBytes
    rw [if_neg (by omega), writeAt_no_hole f k r h]
  refine ⟨hmain, fun hg => ?_, fun hk => ?_⟩
  · rw [hmain, List.drop_eq_nil_of_le (by omega)]
    simp
  · subst hk
    rw [hmain, List.drop_eq_nil_of_le (by omega), List.take_length]
    simp

/-- Witness for C3: overwriting at the end of `[1,2,3]` appends. -/
theorem FileOverwriteBytes_spec_witness :
    FileOverwriteBytes [1, 2, 3] 3 [7, 8] = ([1, 2, 3, 7, 8], none) := by
  have h := (FileOverwriteBytes_spec [1, 2, 3] 3 [7, 8] (by decide)).2.2 (by decide)
  simpa using h

/-- C2: with `fromByte ≤ len(C)` (including both endpoints),
`FileInsertBytes` succeeds and the file becomes `C[0:k] + X + C[k:]`. -/
theorem FileInsertBytes_spec (C : List Nat) (k : Nat) (X : List Nat) (h : k ≤ C.length) :
    FileInsertBytes C k X = (C.take k ++ X ++ C.drop k, none) := by
  unfold FileInsertBytes
  rw [if_neg (by omega)]
  simp only
  rw [writeAt_no_hole C k X h]
  have hlen1 : (C.take k ++ X).length = k + X.length := by
    simp [Nat.min_eq_left h]
  rw [writeAt_no_hole _ (k + X.length) (C.drop k)
    (by simp [Nat.min_eq_left h])]
  rw [show C.take k ++ X ++ C.drop (k + X.length)
      = (C.take k ++ X) ++ C.drop (k + X.length) from rfl]
  rw [List.take_left' hlen1]
  have hdrop : ((C.take k ++ X) ++ C.drop (k + X.length)).drop
      (k + X.length + (C.drop k).length) = [] := by
    apply List.drop_eq_nil_of_le
    simp [Nat.min_eq_left h]
    omega
  rw [hdrop]
  simp

/-- Witness for C2: inserting `[9]` at interior position 1 of `[1,2,3]`. -/
theorem FileInsertBytes_spec_witness :
    FileInsertBytes [1, 2, 3] 1 [9] = ([1, 9, 2, 3], none) := by
  have h := FileInsertBytes_spec [1, 2, 3] 1 [9] (by decide)
  simpa using h

/-- C4: for any `fromByte` greater than the current size, both mutators
return the gap error and the file content is unchanged (the check fires
before the file is even opened for writing). -/
theorem gap_refused (f : List Nat) (k : Nat) (d : List Nat) (h : f.length < k) :
    FileOverwriteBytes f k d = (f, some gapErr) ∧
    FileInsertBytes f k d = (f, some gapErr) := by
  unfold FileOverwriteBytes FileInsertBytes
  rw [if_pos h, if_pos h]
  exact ⟨rfl, rfl⟩

/-- Witness for C4: offset 1 on an empty file is refused by both mutators. -/
theorem gap_refused_witness :
    FileOverwriteBytes [] 1 [5] = ([], some gapErr) ∧
    FileInsertBytes [] 1 [5] = ([], some gapErr) :=
  gap_refused [] 1 [5] (by decide)

theorem readLine_some : ∀ l line rest : List Nat, readLine l = (line, some rest) →
    rest.length < l.length ∧ l.count lfByte = rest.count lfByte + 1 := by
  intro l
  induction l with
  | nil =>
    intro line rest h
    simp [readLine] at h
  | cons b t ih =>
    intro line rest h
    by_cases hb : b = lfByte
    · simp only [readLine, if_pos hb, Prod.mk.injEq, Option.some.injEq] at h
      obtain ⟨rfl, rfl⟩ := h
      refine ⟨by simp, ?_⟩
      rw [List.count_cons]
      simp [hb]
    · cases hrt : readLine t with
      | mk tline trest =>
        simp only [readLine, if_neg hb, hrt, Prod.mk.injEq] at h
        cases trest with
        | none => exact absurd h.2 (by simp)
        | some r =>
          have hrr : r = rest := by simpa using h.2
          subst hrr
          obtain ⟨ih1, ih2⟩ := ih tline r hrt
          constructor
          · simp
            omega
          · rw [List.count_cons]
            simp [hb, ih2]

theorem readLine_none : ∀ l line : List Nat, readLine l = (line, none) →
    l.count lfByte = 0 := by
  intro l
  induction l with
  | nil =>
    intro line _
    simp
  | cons b t ih =>
    intro line h
    by_cases hb : b = lfByte
    · simp only [readLine, if_pos hb, Prod.mk.injEq] at h
      exact absurd h.2 (by simp)
    · cases hrt : readLine t with
      | mk tline trest =>
        simp only [readLine, if_neg hb, hrt, Prod.mk.injEq] at h
        cases trest with
        | some r => exact absurd h.2 (by simp)
        | none =>
          rw [List.count_cons]
          simp [hb, ih tline hrt]

theorem splitLoop_true_length (fuel : Nat) :
    ∀ data : List Nat, data.length < fuel →
      (splitLoop true fuel data).length = data.count lfByte + 1 := by
  induction fuel with
  | zero =>
    intro data h
    omega
  | succ fuel ih =>
    intro data h
    cases hrl : readLine data with
    | mk line orest =>
      cases orest with
      | some rest =>
        obtain ⟨h1, h2⟩ := readLine_some data line rest hrl
        simp only [splitLoop, hrl]
        rw [List.length_append, ih rest (by omega), h2]
        simp
        omega
      | none =>
        have h2 := readLine_none data line hrl
        simp [splitLoop, hrl, h2]

theorem splitToLines_true_length (data : List Nat) :
    (splitToLines data true).length = data.count lfByte + 1 := by
  unfold splitToLines
  exact splitLoop_true_length (data.length + 1) data (by omega)

/-- C10: with `allowEmptyLines = true` the splitter returns exactly
`(number of line-feed bytes) + 1` strings — every loop iteration appends its
(possibly empty) trimmed line — so the result is never empty and
`FastLoadTxtFile` with `allowEmptyLines = true` never returns the
`ErrFileEmpty` sentinel, whatever `returnErrorOnEmptyFile` is. -/
theorem splitToLines_count_and_never_empty (data : List Nat) (returnErrorOnEmptyFile : Bool) :
    (splitToLines data true).length = data.count lfByte + 1 ∧
    splitToLines data true ≠ [] ∧
    FastLoadTxtFile data true returnErrorOnEmptyFile ≠ Except.error ErrFileEmpty := by
  have hlen := splitToLines_true_length data
  refine ⟨hlen, fun hnil => by rw [hnil] at hlen; simp at hlen, ?_⟩
  simp only [FastLoadTxtFile, MultithreadedRead_self]
  have hc : (returnErrorOnEmptyFile && (splitToLines data true).length = 0) = false := by
    rw [hlen]
    simp
  rw [hc]
  simp

/-- C5 counterexample: on the buffer `"a\n\nb\n"` with
`allowEmptyLines = true` the splitter does NOT return the three lines
`"a"`, `""`, `"b"` claimed by the spec. -/
theorem splitToLines_example_cex :
    splitToLines [97, 10, 10, 98, 10] true ≠ [[97], [], [98]] := by decide

/-- C5 (amended): on `"a\n\nb\n"` the splitter returns `["a","b"]` with
`allowEmptyLines = false`, and `["a","","b",""]` with
`allowEmptyLines = true`: the final `ReadString` call after the trailing
line feed reads nothing, hits `io.EOF`, and still appends one empty line. -/
theorem splitToLines_example :
    splitToLines [97, 10, 10, 98, 10] false = [[97], [98]] ∧
    splitToLines [97, 10, 10, 98, 10] true = [[97], [], [98], []] := by decide

/-- C6 counterexample: on a zero-byte file with `returnErrorOnEmptyFile =
true` but `allowEmptyLines = true`, the result is not the sentinel. -/
theorem FastLoadTxtFile_empty_allowTrue_cex :
    FastLoadTxtFile [] true true ≠ Except.error ErrFileEmpty := by
  intro h
  rw [show FastLoadTxtFile [] true true = Except.ok [[]] from rfl] at h
  exact Except.noConfusion h

/-- C6 (amended): on a zero-byte file with `returnErrorOnEmptyFile = true`,
the `ErrFileEmpty` sentinel is returned when `allowEmptyLines = false`; with
`allowEmptyLines = true` the phantom final empty line makes the result the
successful singleton `[""]` instead. -/
theorem FastLoadTxtFile_empty :
    FastLoadTxtFile [] false true = Except.error ErrFileEmpty ∧
    FastLoadTxtFile [] true true = Except.ok [[]] :=
  ⟨rfl, rfl⟩

/-- C9: the assembled-length check exists in `MultithreadedRead`, but an
undercounted chunk read does not trigger it.  If the file was statted at 4
bytes and then truncated to 0 bytes before the chunk read, `ReadAt` returns
0 of the 4 requested bytes with `io.EOF` (treated as success): the chunk
buffer keeps its requested length thanks to its zero fill, the assembled
length still equals the planned size, and the call succeeds with four zero
bytes — the undercount is silently tolerated instead of raising the
"file size error". -/
theorem MultithreadedRead_undercount_tolerated :
    MultithreadedRead 4 [] = Except.ok [0, 0, 0, 0] ∧
    ((fileInChunks 4).map (readChunkFn [])).map filePart.lengthRead = [0] ∧
    ((fileInChunks 4).map (readChunkFn [])).map filePart.lengthRequested = [4] :=
  ⟨rfl, rfl, rfl⟩

/-- C8: the worker count is 1 up to 1 MiB inclusive, 8 up to 128 MiB
inclusive, and 16 beyond, with the four boundary sizes as stated. -/
theorem workerCount_thresholds (s : Nat) :
    (s ≤ 1048576 → numberOfThreads s = 1) ∧
    (1048576 < s → s ≤ 134217728 → numberOfThreads s = 8) ∧
    (134217728 < s → numberOfThreads s = 16) ∧
    numberOfThreads 1048576 = 1 ∧ numberOfThreads 1048577 = 8 ∧
    numberOfThreads 134217728 = 8 ∧ numberOfThreads 134217729 = 16 := by
  refine ⟨fun h => ?_, fun h1 h2 => ?_, fun h => ?_, by decide, by decide, by decide, by decide⟩
  · simp [numberOfThreads, h]
  · simp [numberOfThreads, h2]
    omega
  · unfold numberOfThreads
    rw [if_neg (by omega), if_neg (by omega)]

/-- Witness for C8 at the boundary sizes. -/
theorem workerCount_thresholds_witness :
    numberOfThreads 1048576 = 1 ∧ numberOfThreads 1048577 = 8 ∧
    numberOfThreads 134217728 = 8 ∧ numberOfThreads 134217729 = 16 :=
  ⟨(workerCount_thresholds 1048576).1 (by decide),
   (workerCount_thresholds 1048577).2.1 (by decide) (by decide),
   (workerCount_thresholds 134217728).2.1 (by decide) (by decide),
   (workerCount_thresholds 134217729).2.2.1 (by decide)⟩
